import Mathlib

/-!
# serde-gettext: shallow embedding of the resolution engine

This file embeds the core of `src/lib.rs` of the `serde-gettext` crate:
the recursive `Value` model, the argument binder (`Formatter`), the
base/local overlay (`UnionMap`) and the resolution engine
(`Value::try_into_string` / `Value::format`).

External collaborators are embedded as follows:
* the translation oracle (`gettextrs`) and the date renderer
  (`libc_strftime::strftime_local`) are opaque: resolution is
  parameterised over an `Oracle` record of their behaviours;
* the placeholder formatter (`dynfmt::PythonFormat`) is modelled
  concretely (`pyFmt`) from its interface as the spec describes it:
  `%s` positional tokens, `%(key)s` named tokens, `%%` escapes,
  unresolved references and malformed tokens are errors;
* Rust `HashMap<String, String>` is modelled as an association list
  (`SMap`) with overwrite-on-insert; the keyword-argument map of a node
  is modelled as an association list of its (unique-keyed) entries.

Numeric renderings follow Rust `to_string`: `i64` is `Int.repr`,
`u32` is `Nat.repr`.  The `f64` payload of `Value::Float` is carried as
its canonical decimal rendering (a `String`), since no claim below
depends on float arithmetic, only on the rendered text being passed
through unchanged.
-/

/-- Embeds `Error` from `src/lib.rs`: the only two error kinds of the crate. -/
inductive Error where
  /-- Formatting error, carrying the formatter's diagnostic text. -/
  | FormatError (msg : String)
  /-- Missing join separator (empty `Array`). -/
  | MissingJoinSeparator
deriving DecidableEq, Repr

/-- Embeds `LocaleCategory` from `src/lib.rs` (used only by `dcngettext`). -/
inductive LocaleCategory where
  | LcCType
  | LcNumeric
  | LcTime
  | LcCollate
  | LcMonetary
  | LcMessages
  | LcAll
  | LcPaper
  | LcName
  | LcAddress
  | LcTelephone
  | LcMeasurement
  | LcIdentification
deriving DecidableEq, Repr

/-- Model of Rust `HashMap<String, String>` as an association list. -/
abbrev SMap := List (String × String)

/-- Embeds `HashMap::get`. -/
def SMap.get (m : SMap) (k : String) : Option String :=
  match m with
  | [] => none
  | (k2, v) :: rest => if k2 = k then some v else SMap.get rest k

/-- Embeds `HashMap::insert` (overwrites an existing binding for the key). -/
def SMap.insert (m : SMap) (k v : String) : SMap :=
  match m with
  | [] => [(k, v)]
  | (k2, v2) :: rest =>
      if k2 = k then (k, v) :: rest else (k2, v2) :: SMap.insert rest k v

mutual

/-- Embeds `Value` from `src/lib.rs`: the untagged union of message nodes. -/
inductive Value where
  | Text (s : String)
  | Integer (i : Int)
  /-- Payload of the `f64`, carried as its canonical decimal rendering. -/
  | Float (repr : String)
  | Bool (b : Bool)
  | Unit
  /-- Fields of `DatetimeValue`: strftime pattern and epoch. -/
  | Datetime (strftime : String) (epoch : Int)
  | Array (xs : List Value)
  | FormattedText (text : String) (args : Option Formatter)
  | GetText (gettext : String) (args : Option Formatter)
  | NGetText (singular plural : String) (n : Nat) (args : Option Formatter)
  | PGetText (ctx msgid : String) (args : Option Formatter)
  | DGetText (domain msgid : String) (args : Option Formatter)
  | DNGetText (domain singular plural : String) (n : Nat) (args : Option Formatter)
  | NPGetText (ctx singular plural : String) (n : Nat) (args : Option Formatter)
  | DCNGetText (domain singular plural : String) (n : Nat)
      (category : LocaleCategory) (args : Option Formatter)

/-- Embeds `Formatter` from `src/lib.rs`: keyword or positional arguments. -/
inductive Formatter where
  | KeywordArgs (kwargs : List (String × Value))
  | PositionalArgs (args : List Value)

end

/-- The external translation oracle (`gettextrs`) and date renderer
(`libc_strftime`), as opaque behaviours; resolution is parameterised
over this record.  The crate calls exactly these entry points. -/
structure Oracle where
  gettext : String → String
  ngettext : String → String → Nat → String
  pgettext : String → String → String
  dgettext : String → String → String
  dngettext : String → String → String → Nat → String
  npgettext : String → String → String → Nat → String
  dcngettext : String → String → String → Nat → LocaleCategory → String
  strftime_local : String → Int → String

/-- The argument lookup surface handed to the placeholder formatter:
keyed lookup (for maps) and indexed lookup (for positional sequences). -/
structure ArgSource where
  get_index : Nat → Option String
  get_key : String → Option String

/-- Embeds `UnionMap::get_key` from `src/lib.rs`: consult the first (local)
map, fall back to the second (base) map. -/
def UnionMap.get_key (a b : SMap) (key : String) : Option String :=
  (a.get key).orElse (fun _ => b.get key)

/-- The `UnionMap(&map, base_map)` argument source handed to the
formatter for keyword-shaped substitution: keys resolve through the
overlay, positional indices are unsupported. -/
def mapArgSource (a b : SMap) : ArgSource :=
  ⟨fun _ => none, UnionMap.get_key a b⟩

/-- The `Vec<String>` argument source handed to the formatter for
positional substitution: indices resolve into the sequence, keys are
unsupported. -/
def listArgSource (xs : List String) : ArgSource :=
  ⟨fun i => xs.get? i, fun _ => none⟩

mutual

/-- Modelled from the spec: the external placeholder formatter
(`dynfmt::PythonFormat`), whose source is not part of this repository.
Scans the template: `%%` is a literal percent, `%s` consumes the next
positional argument, `%(key)s` looks up `key`; an unresolved reference
or any other `%`-token is an error. -/
def pyFmt : List Char → Nat → ArgSource → Except String (List Char)
  | [], _, _ => .ok []
  | c :: rest, i, src =>
      if c = '%' then
        match rest with
        | [] => .error "unsupported format"
        | c2 :: rest2 =>
            if c2 = '%' then (pyFmt rest2 i src).map (fun out => '%' :: out)
            else if c2 = 's' then
              match src.get_index i with
              | some v => (pyFmt rest2 (i + 1) src).map (fun out => v.toList ++ out)
              | none => .error ("argument missing at index " ++ Nat.repr i)
            else if c2 = '(' then pyKey rest2 [] i src
            else .error "unsupported format"
      else
        (pyFmt rest i src).map (fun out => c :: out)

/-- Modelled from the spec: key scanning of a `%(key)s` token for the
external placeholder formatter (see `pyFmt`). -/
def pyKey : List Char → List Char → Nat → ArgSource → Except String (List Char)
  | [], _, _, _ => .error "unsupported format"
  | c :: rest, acc, i, src =>
      if c = ')' then
        match rest with
        | [] => .error "unsupported format"
        | c2 :: rest2 =>
            if c2 = 's' then
              match src.get_key (String.mk acc.reverse) with
              | some v => (pyFmt rest2 i src).map (fun out => v.toList ++ out)
              | none =>
                  .error ("argument missing for key " ++ String.mk acc.reverse)
            else .error "unsupported format"
      else
        pyKey rest (c :: acc) i src

end

/-- Embeds the call `PythonFormat.format(message, src).map_err(|e| FormatError(e))`:
the formatter call as the crate wraps it. -/
def pythonFormat (message : String) (src : ArgSource) : Except Error String :=
  match pyFmt message.toList 0 src with
  | .ok out => .ok (String.mk out)
  | .error e => .error (Error.FormatError e)

mutual

/-- Embeds `Value::try_into_string(self, base_map)` from `src/lib.rs`: the
resolution engine.  Each variant starts from a fresh empty local map
(`let mut map = HashMap::new()`); the `handle_plural!` macro first
inserts `"n" ↦ n.to_string()` into it. -/
def Value.try_into_string (o : Oracle) (v : Value) (base_map : SMap) :
    Except Error String :=
  match v with
  | .Text x => .ok x
  | .Integer x => .ok (Int.repr x)
  | .Float x => .ok x
  | .Bool x => .ok (if x then o.gettext "yes" else o.gettext "no")
  | .Unit => .ok (o.gettext "n/a")
  | .Datetime pat epoch => .ok (o.strftime_local pat epoch)
  | .Array xs =>
      match xs with
      | [] => .error Error.MissingJoinSeparator
      | x :: rest => do
          let sep ← Value.try_into_string o x base_map
          let vec ← resolveList o rest base_map
          pure (String.intercalate sep vec)
  | .FormattedText text args => Value.format o text args [] base_map
  | .GetText msgid args => Value.format o (o.gettext msgid) args [] base_map
  | .NGetText sg pl n args =>
      Value.format o (o.ngettext sg pl n) args [("n", Nat.repr n)] base_map
  | .PGetText ctx msgid args =>
      Value.format o (o.pgettext ctx msgid) args [] base_map
  | .DGetText dom msgid args =>
      Value.format o (o.dgettext dom msgid) args [] base_map
  | .DNGetText dom sg pl n args =>
      Value.format o (o.dngettext dom sg pl n) args [("n", Nat.repr n)] base_map
  | .NPGetText ctx sg pl n args =>
      Value.format o (o.npgettext ctx sg pl n) args [("n", Nat.repr n)] base_map
  | .DCNGetText dom sg pl n cat args =>
      Value.format o (o.dcngettext dom sg pl n cat) args [("n", Nat.repr n)] base_map

/-- The `for value in it { vec.push(value.try_into_string(base_map)?) }`
loop of the `Array` branch: resolve a list of values in order,
aborting on the first error. -/
def resolveList (o : Oracle) (xs : List Value) (base_map : SMap) :
    Except Error (List String) :=
  match xs with
  | [] => .ok []
  | x :: rest => do
      let s ← Value.try_into_string o x base_map
      let ss ← resolveList o rest base_map
      pure (s :: ss)

/-- The `for (key, value) in kwargs { map.insert(key, value.try_into_string(base_map)?) }`
loop of `Value::format`: resolve keyword arguments in order into the
local map, aborting on the first error. -/
def resolveKw (o : Oracle) (kw : List (String × Value)) (map : SMap)
    (base_map : SMap) : Except Error SMap :=
  match kw with
  | [] => .ok map
  | (k, v) :: rest => do
      let s ← Value.try_into_string o v base_map
      resolveKw o rest (SMap.insert map k s) base_map

/-- Embeds `Value::format(message, formatter, map, base_map)` from
`src/lib.rs`: dispatch on the argument shape.  Keyword arguments are
resolved into the local map and the formatter gets the
`UnionMap(&map, base_map)` overlay; positional arguments are resolved
to a sequence of strings handed to the formatter directly; with no
arguments the formatter gets the overlay of the (possibly pre-seeded)
local map over the base map. -/
def Value.format (o : Oracle) (message : String) (formatter : Option Formatter)
    (map : SMap) (base_map : SMap) : Except Error String :=
  match formatter with
  | some (.KeywordArgs kwargs) => do
      let m ← resolveKw o kwargs map base_map
      pythonFormat message (mapArgSource m base_map)
  | some (.PositionalArgs args) => do
      let ss ← resolveList o args base_map
      pythonFormat message (listArgSource ss)
  | none => pythonFormat message (mapArgSource map base_map)

end

/-- The passthrough oracle of the spec's concrete scenarios: gettext
falls back to its input, plural forms pick singular exactly at `n = 1`,
and the date renderer echoes its pattern. -/
def idOracle : Oracle where
  gettext := fun s => s
  ngettext := fun sg pl n => if n = 1 then sg else pl
  pgettext := fun _ msgid => msgid
  dgettext := fun _ msgid => msgid
  dngettext := fun _ sg pl n => if n = 1 then sg else pl
  npgettext := fun _ sg pl n => if n = 1 then sg else pl
  dcngettext := fun _ sg pl n _ => if n = 1 then sg else pl
  strftime_local := fun pat _ => pat


theorem exceptBind_ok {α β ε : Type} (x : α) (f : α → Except ε β) :
    (Except.ok x >>= f : Except ε β) = f x := rfl

theorem exceptBind_error {α β ε : Type} (e : ε) (f : α → Except ε β) :
    ((Except.error e : Except ε α) >>= f) = Except.error e := rfl

theorem SMap.get_insert_self (m : SMap) (k v : String) :
    (m.insert k v).get k = some v := by
  induction m with
  | nil => simp [SMap.insert, SMap.get]
  | cons hd tl ih =>
      obtain ⟨k2, v2⟩ := hd
      by_cases h : k2 = k
      · simp [SMap.insert, h, SMap.get]
      · simp [SMap.insert, h, SMap.get, ih]

theorem SMap.get_insert_ne (m : SMap) (k v k2 : String) (h : k2 ≠ k) :
    (m.insert k v).get k2 = m.get k2 := by
  have hne : k ≠ k2 := Ne.symm h
  induction m with
  | nil => simp [SMap.insert, SMap.get, hne]
  | cons hd tl ih =>
      obtain ⟨k3, v3⟩ := hd
      by_cases h3 : k3 = k
      · subst h3
        simp [SMap.insert, SMap.get, hne]
      · simp [SMap.insert, h3, SMap.get, ih]

theorem resolveList_append (o : Oracle) (xs ys : List Value) (base : SMap) :
    resolveList o (xs ++ ys) base =
      (resolveList o xs base >>= fun a =>
        resolveList o ys base >>= fun b => Except.ok (a ++ b)) := by
  induction xs with
  | nil =>
      cases hys : resolveList o ys base with
      | error e => simp [resolveList, hys, exceptBind_ok, exceptBind_error]
      | ok ss => simp [resolveList, hys, exceptBind_ok]
  | cons x tl ih =>
      rw [List.cons_append]
      cases hx : Value.try_into_string o x base with
      | error e =>
          simp [resolveList, hx, exceptBind_error]
      | ok s =>
          simp only [resolveList, hx, exceptBind_ok, ih]
          cases htl : resolveList o tl base with
          | error e => simp [exceptBind_error, exceptBind_ok]
          | ok ss =>
              cases hys : resolveList o ys base with
              | error e => simp [exceptBind_error, exceptBind_ok]
              | ok ss2 => simp [exceptBind_ok]

theorem resolveKw_append (o : Oracle) (xs ys : List (String × Value))
    (m base : SMap) :
    resolveKw o (xs ++ ys) m base =
      (resolveKw o xs m base >>= fun m2 => resolveKw o ys m2 base) := by
  induction xs generalizing m with
  | nil => simp [resolveKw, exceptBind_ok]
  | cons hd tl ih =>
      obtain ⟨k, v⟩ := hd
      cases hv : Value.try_into_string o v base with
      | error e => simp [resolveKw, hv, exceptBind_error]
      | ok s => simp [resolveKw, hv, exceptBind_ok, ih]

theorem resolveKw_get_of_not_mem (o : Oracle) (kw : List (String × Value))
    (m m2 base : SMap) (k : String)
    (hk : k ∉ kw.map Prod.fst)
    (h : resolveKw o kw m base = .ok m2) :
    m2.get k = m.get k := by
  induction kw generalizing m with
  | nil =>
      simp [resolveKw] at h
      rw [h]
  | cons hd tl ih =>
      obtain ⟨k2, v⟩ := hd
      simp only [List.map_cons, List.mem_cons, not_or] at hk
      cases hv : Value.try_into_string o v base with
      | error e =>
          rw [resolveKw, hv, exceptBind_error] at h
          exact absurd h (by simp)
      | ok s =>
          rw [resolveKw, hv, exceptBind_ok] at h
          have step := ih (SMap.insert m k2 s) hk.2 h
          rw [step, SMap.get_insert_ne _ _ _ _ hk.1]

theorem pyFmt_cons_ne (c : Char) (rest : List Char) (i : Nat) (src : ArgSource)
    (hc : ¬ c = '%') :
    pyFmt (c :: rest) i src = (pyFmt rest i src).map (fun out => c :: out) := by
  rw [pyFmt.eq_def]
  dsimp only
  rw [if_neg hc]

theorem pyKey_cons_ne (c : Char) (rest acc : List Char) (i : Nat)
    (src : ArgSource) (hc : ¬ c = ')') :
    pyKey (c :: rest) acc i src = pyKey rest (c :: acc) i src := by
  rw [pyKey.eq_def]
  dsimp only
  rw [if_neg hc]

theorem pyFmt_no_pct (cs : List Char) (i : Nat) (src : ArgSource)
    (h : '%' ∉ cs) : pyFmt cs i src = .ok cs := by
  induction cs generalizing i with
  | nil => rfl
  | cons c rest ih =>
      simp only [List.mem_cons, not_or] at h
      have hc : ¬ c = '%' := fun hh => h.1 hh.symm
      rw [pyFmt_cons_ne c rest i src hc, ih i h.2]
      rfl

theorem pyKey_scan (kl : List Char) (rest acc : List Char) (i : Nat)
    (src : ArgSource) (h : ')' ∉ kl) :
    pyKey (kl ++ ')' :: 's' :: rest) acc i src =
      match src.get_key (String.mk (acc.reverse ++ kl)) with
      | some v => (pyFmt rest i src).map (fun out => v.toList ++ out)
      | none =>
          .error ("argument missing for key " ++ String.mk (acc.reverse ++ kl)) := by
  induction kl generalizing acc with
  | nil =>
      rw [List.nil_append, pyKey.eq_def]
      dsimp only
      rw [if_pos rfl, if_pos rfl]
      simp
  | cons c kl ih =>
      simp only [List.mem_cons, not_or] at h
      have hc : ¬ c = ')' := fun hh => h.1 hh.symm
      rw [List.cons_append, pyKey_cons_ne c _ acc i src hc, ih (c :: acc) h.2]
      simp

theorem pythonFormat_key (k : String) (src : ArgSource)
    (hk : ')' ∉ k.data) :
    pythonFormat ("%(" ++ k ++ ")s") src =
      match src.get_key k with
      | some v => .ok v
      | none => .error (Error.FormatError ("argument missing for key " ++ k)) := by
  have hdata : ("%(" ++ k ++ ")s").toList = '%' :: '(' :: (k.data ++ [')', 's']) := by
    show ("%(" ++ k ++ ")s").data = _
    rw [String.data_append, String.data_append]
    rfl
  rw [pythonFormat, hdata, pyFmt.eq_def]
  dsimp only
  rw [if_pos rfl]
  rw [if_neg (by decide), if_neg (by decide), if_pos rfl]
  have hsplit : k.data ++ [')', 's'] = k.data ++ ')' :: 's' :: [] := rfl
  rw [hsplit, pyKey_scan k.data [] [] 0 src hk]
  cases hkk : src.get_key (String.mk (List.reverse [] ++ k.data)) with
  | some v =>
      simp only [List.reverse_nil, List.nil_append] at hkk ⊢
      rw [hkk]
      dsimp only
      rw [pyFmt.eq_def]
      dsimp only
      simp [Except.map]
  | none =>
      simp only [List.reverse_nil, List.nil_append] at hkk ⊢
      rw [hkk]

/-- The tail of the spec's join sum: `sepSum s [v2, …, vn]` is
`s ++ v2 ++ s ++ v3 ++ ⋯ ++ s ++ vn`. -/
def sepSum (s : String) : List String → String
  | [] => ""
  | a :: rest => s ++ a ++ sepSum s rest

theorem intercalate_go_sepSum (s : String) (as : List String) (acc : String) :
    String.intercalate.go acc s as = acc ++ sepSum s as := by
  induction as generalizing acc with
  | nil =>
      show acc = acc ++ ""
      rw [String.append_empty]
  | cons a as ih =>
      show String.intercalate.go (acc ++ s ++ a) s as = acc ++ sepSum s (a :: as)
      rw [ih]
      show acc ++ s ++ a ++ sepSum s as = acc ++ (s ++ a ++ sepSum s as)
      simp only [String.append_assoc]

/-- The join formula of the spec: the empty string for no children, else
`v1 ++ s ++ v2 ++ ⋯ ++ s ++ vn`. -/
def joinSem (s : String) : List String → String
  | [] => ""
  | a :: rest => a ++ sepSum s rest

theorem intercalate_sepSum (s : String) (ss : List String) :
    String.intercalate s ss = joinSem s ss := by
  cases ss with
  | nil => rfl
  | cons a rest => exact intercalate_go_sepSum s rest a

/-- C1: resolving a non-empty `Array` resolves the first element to a
separator string `s`, resolves the remaining elements in order, and
returns `v1 ++ s ++ v2 ++ ⋯ ++ s ++ vn` (their join by `s`); resolving
an `Array` with zero elements always fails with `MissingJoinSeparator`. -/
theorem C1_array_join_semantics (o : Oracle) (base : SMap) (sep : Value)
    (vs : List Value) (s : String) (ss : List String)
    (hsep : Value.try_into_string o sep base = .ok s)
    (hvs : resolveList o vs base = .ok ss) :
    Value.try_into_string o (.Array (sep :: vs)) base =
      .ok (String.intercalate s ss) ∧
    String.intercalate s ss = joinSem s ss ∧
    Value.try_into_string o (.Array []) base =
      .error Error.MissingJoinSeparator := by
  refine ⟨?_, intercalate_sepSum s ss, rfl⟩
  have hunfold : Value.try_into_string o (.Array (sep :: vs)) base =
      (Value.try_into_string o sep base >>= fun s2 =>
        resolveList o vs base >>= fun ss2 =>
          Except.ok (String.intercalate s2 ss2)) := rfl
  rw [hunfold, hsep, exceptBind_ok, hvs, exceptBind_ok]

/-- C1 witness: `[", ", true, 3.14, null]` joins to `"yes, 3.14, n/a"`
under the passthrough oracle, and the empty array fails. -/
theorem C1_array_join_semantics_witness :
    Value.try_into_string idOracle
        (.Array [.Text ", ", .Bool true, .Float "3.14", .Unit]) [] =
      .ok "yes, 3.14, n/a" ∧
    Value.try_into_string idOracle (.Array []) [] =
      .error Error.MissingJoinSeparator := by
  have h := C1_array_join_semantics idOracle [] (.Text ", ")
    [.Bool true, .Float "3.14", .Unit] ", " ["yes", "3.14", "n/a"] rfl rfl
  exact ⟨by rw [h.1]; rfl, h.2.2⟩

/-- C9: an `Array` with exactly one element (the separator alone,
resolving successfully) returns the empty string, not an error; only
the zero-element `Array` fails with `MissingJoinSeparator`. -/
theorem C9_singleton_array (o : Oracle) (base : SMap) (sep : Value)
    (s : String) (h : Value.try_into_string o sep base = .ok s) :
    Value.try_into_string o (.Array [sep]) base = .ok "" ∧
    Value.try_into_string o (.Array []) base =
      .error Error.MissingJoinSeparator := by
  constructor
  · have hunfold : Value.try_into_string o (.Array [sep]) base =
        (Value.try_into_string o sep base >>= fun s2 =>
          resolveList o [] base >>= fun ss2 =>
            Except.ok (String.intercalate s2 ss2)) := rfl
    rw [hunfold, h, exceptBind_ok]
    rfl
  · rfl

/-- C9 witness: `Array [", "]` resolves to `""`. -/
theorem C9_singleton_array_witness :
    Value.try_into_string idOracle (.Array [.Text ", "]) [] = .ok "" ∧
    Value.try_into_string idOracle (.Array []) [] =
      .error Error.MissingJoinSeparator :=
  C9_singleton_array idOracle [] (.Text ", ") ", " rfl

/-- C5: `Bool(true)` resolves to the oracle's rendering of the token
`"yes"`, `Bool(false)` to the rendering of `"no"`, and `Unit` to the
rendering of `"n/a"`; the result is always the oracle's rendering,
never the raw literal `"true"` or `"false"`. -/
theorem C5_bool_unit_via_oracle (o : Oracle) (base : SMap) :
    Value.try_into_string o (.Bool true) base = .ok (o.gettext "yes") ∧
    Value.try_into_string o (.Bool false) base = .ok (o.gettext "no") ∧
    Value.try_into_string o .Unit base = .ok (o.gettext "n/a") :=
  ⟨rfl, rfl, rfl⟩

/-- C7: a `FormattedText` node with no args and a template containing
no placeholder tokens (no `%` at all) resolves to the template
unchanged, for any base mapping. -/
theorem C7_formatted_text_roundtrip (o : Oracle) (base : SMap) (t : String)
    (h : '%' ∉ t.data) :
    Value.try_into_string o (.FormattedText t none) base = .ok t := by
  have hunfold : Value.try_into_string o (.FormattedText t none) base =
      pythonFormat t (mapArgSource [] base) := rfl
  rw [hunfold]
  unfold pythonFormat
  rw [pyFmt_no_pct t.toList 0 _ h]
  rfl

/-- C7 witness: `"Hello!"` round-trips. -/
theorem C7_formatted_text_roundtrip_witness :
    Value.try_into_string idOracle (.FormattedText "Hello!" none) [] =
      .ok "Hello!" :=
  C7_formatted_text_roundtrip idOracle [] "Hello!" (by decide)

/-- C4: resolution fails fast — with a successfully resolved separator
and prefix, the first failing child of an `Array` aborts the whole
resolve call with that child's error unchanged, regardless of the
remaining elements; likewise for keyword-argument maps; and every
error is one of exactly two kinds, `FormatError` or
`MissingJoinSeparator`. -/
theorem C4_fail_fast_propagation :
    (∀ e : Error,
        (∃ msg, e = Error.FormatError msg) ∨ e = Error.MissingJoinSeparator) ∧
    (∀ (o : Oracle) (base : SMap) (sep : Value) (s : String)
        (pre : List Value) (ss : List String) (x : Value) (e : Error)
        (post : List Value),
        Value.try_into_string o sep base = .ok s →
        resolveList o pre base = .ok ss →
        Value.try_into_string o x base = .error e →
        Value.try_into_string o (.Array (sep :: (pre ++ x :: post))) base =
          .error e) ∧
    (∀ (o : Oracle) (base : SMap) (t : String) (pre : List (String × Value))
        (m : SMap) (k : String) (x : Value) (e : Error)
        (post : List (String × Value)),
        resolveKw o pre [] base = .ok m →
        Value.try_into_string o x base = .error e →
        Value.try_into_string o
            (.FormattedText t (some (.KeywordArgs (pre ++ (k, x) :: post))))
            base =
          .error e) := by
  refine ⟨fun e => ?_, ?_, ?_⟩
  · cases e with
    | FormatError msg => exact Or.inl ⟨msg, rfl⟩
    | MissingJoinSeparator => exact Or.inr rfl
  · intro o base sep s pre ss x e post hsep hpre hx
    have hunfold : Value.try_into_string o (.Array (sep :: (pre ++ x :: post))) base =
        (Value.try_into_string o sep base >>= fun s2 =>
          resolveList o (pre ++ x :: post) base >>= fun ss2 =>
            Except.ok (String.intercalate s2 ss2)) := rfl
    rw [hunfold, hsep, exceptBind_ok, resolveList_append, hpre, exceptBind_ok]
    have hcons : resolveList o (x :: post) base =
        (Value.try_into_string o x base >>= fun s2 =>
          resolveList o post base >>= fun ss2 => Except.ok (s2 :: ss2)) := rfl
    rw [hcons, hx, exceptBind_error, exceptBind_error, exceptBind_error]
  · intro o base t pre m k x e post hpre hx
    have hunfold : Value.try_into_string o
        (.FormattedText t (some (.KeywordArgs (pre ++ (k, x) :: post)))) base =
        (resolveKw o (pre ++ (k, x) :: post) [] base >>= fun m2 =>
          pythonFormat t (mapArgSource m2 base)) := rfl
    rw [hunfold, resolveKw_append, hpre, exceptBind_ok]
    have hcons : resolveKw o ((k, x) :: post) m base =
        (Value.try_into_string o x base >>= fun s2 =>
          resolveKw o post (SMap.insert m k s2) base) := rfl
    rw [hcons, hx, exceptBind_error, exceptBind_error]

/-- C4 witness: a failing array element (an empty inner array) aborts
the outer array with its own error, and a failing keyword argument
aborts the node. -/
theorem C4_fail_fast_propagation_witness :
    Value.try_into_string idOracle
        (.Array [.Text ", ", .Text "a", .Array [], .Text "b"]) [] =
      .error Error.MissingJoinSeparator ∧
    Value.try_into_string idOracle
        (.FormattedText "x"
          (some (.KeywordArgs
            [("good", .Text "v"), ("bad", .Array []), ("later", .Text "w")])))
        [] =
      .error Error.MissingJoinSeparator := by
  constructor
  · exact C4_fail_fast_propagation.2.1 idOracle [] (.Text ", ") ", "
      [.Text "a"] ["a"] (.Array []) Error.MissingJoinSeparator [.Text "b"]
      rfl rfl rfl
  · exact C4_fail_fast_propagation.2.2 idOracle [] "x" [("good", .Text "v")]
      [("good", "v")] "bad" (.Array []) Error.MissingJoinSeparator
      [("later", .Text "w")] rfl rfl

/-- A pair of resolution runs of the same node against two base maps,
as a single term: used to render repeatability in the embedding. -/
def resolveTwice (o : Oracle) (v : Value) (b1 b2 : SMap) :
    Except Error String × Except Error String :=
  (Value.try_into_string o v b1, Value.try_into_string o v b2)

/-- C8: resolution is a pure, deterministic function of the
`(node, base map)` pair (with the external oracle fixed): two runs on
the same node and base agree; a run is unaffected by resolving the
same node with a different base map before or after; and sibling
resolutions share no state — resolving a concatenation of element
lists is the independent composition of resolving each part.  (The
source function borrows the tree and base map immutably and has no
interior mutability, which the embedding renders as a total function.) -/
theorem C8_resolution_pure (o : Oracle) (v : Value) (b b2 : SMap)
    (xs ys : List Value) :
    (resolveTwice o v b b).1 = (resolveTwice o v b b).2 ∧
    (resolveTwice o v b b2).1 = Value.try_into_string o v b ∧
    (resolveTwice o v b b2).2 = Value.try_into_string o v b2 ∧
    resolveList o (xs ++ ys) b =
      (resolveList o xs b >>= fun a =>
        resolveList o ys b >>= fun c => Except.ok (a ++ c)) :=
  ⟨rfl, rfl, rfl, resolveList_append o xs ys b⟩

/-- C3: for keyword substitution, when the node-local mapping defines a
key that the base mapping also defines, the overlay yields the local
value unconditionally, and the value substituted for `%(k)s` is the
local one; the base mapping is consulted only when the local mapping
lacks the key. -/
theorem C3_local_overrides_base (o : Oracle) (a b : SMap) (k v w : String)
    (ha : a.get k = some v) (hb : b.get k = some w) :
    UnionMap.get_key a b k = some v ∧
    (∀ k2, a.get k2 = none → UnionMap.get_key a b k2 = b.get k2) ∧
    (')' ∉ k.data →
      Value.try_into_string o
          (.FormattedText ("%(" ++ k ++ ")s")
            (some (.KeywordArgs [(k, .Text v)]))) b =
        .ok v) := by
  refine ⟨?_, ?_, ?_⟩
  · rw [UnionMap.get_key, ha]
    rfl
  · intro k2 hk2
    rw [UnionMap.get_key, hk2]
    rfl
  · intro hk
    have hunfold : Value.try_into_string o
        (.FormattedText ("%(" ++ k ++ ")s")
          (some (.KeywordArgs [(k, .Text v)]))) b =
        (resolveKw o [(k, .Text v)] [] b >>= fun m =>
          pythonFormat ("%(" ++ k ++ ")s") (mapArgSource m b)) := rfl
    have hkw : resolveKw o [(k, .Text v)] [] b = .ok [(k, v)] := rfl
    rw [hunfold, hkw, exceptBind_ok, pythonFormat_key k _ hk]
    have : (mapArgSource [(k, v)] b).get_key k = some v := by
      show UnionMap.get_key [(k, v)] b k = some v
      rw [UnionMap.get_key]
      show (if k = k then some v else none).orElse _ = some v
      rw [if_pos rfl]
      rfl
    rw [this]

/-- C3 witness: node args `{name: "Marie"}` over base `{name: "Grace"}`
substitute `"Marie"`. -/
theorem C3_local_overrides_base_witness :
    UnionMap.get_key [("name", "Marie")] [("name", "Grace")] "name" =
      some "Marie" ∧
    Value.try_into_string idOracle
        (.FormattedText "%(name)s"
          (some (.KeywordArgs [("name", .Text "Marie")])))
        [("name", "Grace")] =
      .ok "Marie" := by
  have h := C3_local_overrides_base idOracle [("name", "Marie")]
    [("name", "Grace")] "name" "Marie" "Grace" rfl rfl
  exact ⟨h.1, h.2.2 (by decide)⟩

/-- C2: every plural-bearing variant (`NGetText`, `DNGetText`,
`NPGetText`, `DCNGetText`) injects the count under the key `"n"` into
the keyword lookup used for substitution, even with no `Argument` at
all; the injected `"n"` is visible to keyword-shaped lookups, while
positional substitution receives only the resolved element sequence,
whose lookup surface answers no key at all. -/
theorem C2_plural_injects_n (o : Oracle) (base : SMap)
    (sg pl dom ctx : String) (n : Nat) (cat : LocaleCategory) :
    (Value.try_into_string o (.NGetText sg pl n none) base =
        pythonFormat (o.ngettext sg pl n)
          (mapArgSource [("n", Nat.repr n)] base)) ∧
    (Value.try_into_string o (.DNGetText dom sg pl n none) base =
        pythonFormat (o.dngettext dom sg pl n)
          (mapArgSource [("n", Nat.repr n)] base)) ∧
    (Value.try_into_string o (.NPGetText ctx sg pl n none) base =
        pythonFormat (o.npgettext ctx sg pl n)
          (mapArgSource [("n", Nat.repr n)] base)) ∧
    (Value.try_into_string o (.DCNGetText dom sg pl n cat none) base =
        pythonFormat (o.dcngettext dom sg pl n cat)
          (mapArgSource [("n", Nat.repr n)] base)) ∧
    ((mapArgSource [("n", Nat.repr n)] base).get_key "n" =
        some (Nat.repr n)) ∧
    (∀ (vs : List Value) (ss : List String),
        resolveList o vs base = .ok ss →
        Value.try_into_string o
            (.NGetText sg pl n (some (.PositionalArgs vs))) base =
          pythonFormat (o.ngettext sg pl n) (listArgSource ss)) ∧
    (∀ (ss : List String) (k : String), (listArgSource ss).get_key k = none) := by
  refine ⟨rfl, rfl, rfl, rfl, ?_, ?_, fun ss k => rfl⟩
  · show UnionMap.get_key [("n", Nat.repr n)] base "n" = some (Nat.repr n)
    rw [UnionMap.get_key]
    show (if "n" = "n" then some (Nat.repr n) else none).orElse _ =
      some (Nat.repr n)
    rw [if_pos rfl]
    rfl
  · intro vs ss hvs
    have hunfold : Value.try_into_string o
        (.NGetText sg pl n (some (.PositionalArgs vs))) base =
        (resolveList o vs base >>= fun ss2 =>
          pythonFormat (o.ngettext sg pl n) (listArgSource ss2)) := rfl
    rw [hunfold, hvs, exceptBind_ok]

/-- C2 witness: with no `Argument`, `%(n)s` in the plural template
resolves through the injected count; with positional args, the
formatter sees only the resolved sequence. -/
theorem C2_plural_injects_n_witness :
    Value.try_into_string idOracle (.NGetText "%(n)s" "%(n)s" 5 none) [] =
      .ok "5" ∧
    Value.try_into_string idOracle
        (.NGetText "%s" "%s" 5 (some (.PositionalArgs [.Integer 7]))) [] =
      .ok "7" := by
  have h := C2_plural_injects_n idOracle [] "%(n)s" "%(n)s" "d" "c" 5 .LcAll
  have h2 := C2_plural_injects_n idOracle [] "%s" "%s" "d" "c" 5 .LcAll
  constructor
  · rw [show Value.try_into_string idOracle (.NGetText "%(n)s" "%(n)s" 5 none) []
        = pythonFormat (idOracle.ngettext "%(n)s" "%(n)s" 5)
            (mapArgSource [("n", Nat.repr 5)] []) from h.1]
    rfl
  · rw [h2.2.2.2.2.2.1 [.Integer 7] ["7"] rfl]
    rfl

/-- C6 counterexample: for a plural-bearing node with absent
`Argument`, the lookup source is not exactly the base mapping — with
an empty base map the code still resolves `%(n)s` (to the injected
count), while substitution against exactly the base mapping fails. -/
theorem C6_counterexample :
    Value.try_into_string idOracle (.NGetText "%(n)s" "%(n)s" 5 none) [] =
      .ok "5" ∧
    pythonFormat "%(n)s" (mapArgSource [] []) =
      .error (Error.FormatError "argument missing for key n") := by
  constructor
  · rfl
  · rfl

/-- C6 (amended): the lookup source handed to the placeholder
formatter is determined by the `Argument` shape — when the `Argument`
is absent, substitution still occurs and the lookup source is the
implicit local mapping overlaid on the base mapping, which is exactly
the base mapping for every non-plural variant (the local pre-seed is
empty) and the base mapping plus the implicit `"n"` for plural
variants; when the `Argument` is `Positional`, the formatter receives
only the ordered sequence of recursively resolved element strings and
the base mapping is never consulted. -/
theorem C6_lookup_source_by_shape (o : Oracle) (base : SMap)
    (t sg pl : String) (n : Nat) :
    (Value.try_into_string o (.FormattedText t none) base =
        pythonFormat t (mapArgSource [] base)) ∧
    (Value.try_into_string o (.GetText t none) base =
        pythonFormat (o.gettext t) (mapArgSource [] base)) ∧
    (∀ k, (mapArgSource [] base).get_key k = base.get k) ∧
    (Value.try_into_string o (.NGetText sg pl n none) base =
        pythonFormat (o.ngettext sg pl n)
          (mapArgSource [("n", Nat.repr n)] base)) ∧
    (∀ (vs : List Value) (ss : List String),
        resolveList o vs base = .ok ss →
        Value.try_into_string o
            (.FormattedText t (some (.PositionalArgs vs))) base =
          pythonFormat t (listArgSource ss)) ∧
    (∀ (ss : List String) (k : String), (listArgSource ss).get_key k = none) := by
  refine ⟨rfl, rfl, fun k => rfl, rfl, ?_, fun ss k => rfl⟩
  intro vs ss hvs
  have hunfold : Value.try_into_string o
      (.FormattedText t (some (.PositionalArgs vs))) base =
      (resolveList o vs base >>= fun ss2 =>
        pythonFormat t (listArgSource ss2)) := rfl
  rw [hunfold, hvs, exceptBind_ok]

/-- C6 witness: with no args, `%(name)s` resolves from the base map;
with positional args, the base map is not consulted. -/
theorem C6_lookup_source_by_shape_witness :
    Value.try_into_string idOracle (.FormattedText "Hello %(name)s!" none)
        [("name", "Grace")] =
      .ok "Hello Grace!" ∧
    Value.try_into_string idOracle
        (.FormattedText "Hello %s!" (some (.PositionalArgs [.Text "Grace"])))
        [("name", "Marie")] =
      .ok "Hello Grace!" := by
  have h := C6_lookup_source_by_shape idOracle [("name", "Grace")]
    "Hello %(name)s!" "s" "p" 1
  have h2 := C6_lookup_source_by_shape idOracle [("name", "Marie")]
    "Hello %s!" "s" "p" 1
  constructor
  · rw [h.1]
    rfl
  · rw [h2.2.2.2.2.1 [.Text "Grace"] ["Grace"] rfl]
    rfl

/-- C10: when a plural-bearing node's keyword arguments explicitly
define `"n"`, the explicit value (recursively resolved) wins over the
implicitly injected count: the explicit entries are inserted into the
local map after the `"n"` pre-seed, so the final map binds `"n"` to
the resolved explicit value, the overlay lookup returns it, and it is
the value substituted for `%(n)s`. -/
theorem C10_explicit_n_overrides (o : Oracle) (base : SMap)
    (sg pl : String) (n : Nat) (pre post : List (String × Value))
    (v : Value) (s : String) (m : SMap)
    (hpost : "n" ∉ post.map Prod.fst)
    (hv : Value.try_into_string o v base = .ok s)
    (hm : resolveKw o (pre ++ ("n", v) :: post) [("n", Nat.repr n)] base =
        .ok m) :
    Value.try_into_string o
        (.NGetText sg pl n
          (some (.KeywordArgs (pre ++ ("n", v) :: post)))) base =
      pythonFormat (o.ngettext sg pl n) (mapArgSource m base) ∧
    m.get "n" = some s ∧
    UnionMap.get_key m base "n" = some s ∧
    pythonFormat "%(n)s" (mapArgSource m base) = .ok s := by
  have hget : m.get "n" = some s := by
    rw [resolveKw_append] at hm
    cases hpre2 : resolveKw o pre [("n", Nat.repr n)] base with
    | error e =>
        rw [hpre2, exceptBind_error] at hm
        exact absurd hm (by simp)
    | ok m1 =>
        rw [hpre2, exceptBind_ok] at hm
        have hcons : resolveKw o (("n", v) :: post) m1 base =
            (Value.try_into_string o v base >>= fun s2 =>
              resolveKw o post (SMap.insert m1 "n" s2) base) := rfl
        rw [hcons, hv, exceptBind_ok] at hm
        rw [resolveKw_get_of_not_mem o post (SMap.insert m1 "n" s) m base
          "n" hpost hm]
        exact SMap.get_insert_self m1 "n" s
  refine ⟨?_, hget, ?_, ?_⟩
  · have hunfold : Value.try_into_string o
        (.NGetText sg pl n
          (some (.KeywordArgs (pre ++ ("n", v) :: post)))) base =
        (resolveKw o (pre ++ ("n", v) :: post) [("n", Nat.repr n)] base >>=
          fun m2 => pythonFormat (o.ngettext sg pl n) (mapArgSource m2 base)) :=
      rfl
    rw [hunfold, hm, exceptBind_ok]
  · rw [UnionMap.get_key, hget]
    rfl
  · have hpf := pythonFormat_key "n" (mapArgSource m base) (by decide)
    have hlook : (mapArgSource m base).get_key "n" = some s := by
      show UnionMap.get_key m base "n" = some s
      rw [UnionMap.get_key, hget]
      rfl
    rw [hlook] at hpf
    exact hpf

/-- C10 witness: `ngettext` with `n = 5` and explicit `args {n: "7"}`
substitutes `"7"` for `%(n)s`. -/
theorem C10_explicit_n_overrides_witness :
    Value.try_into_string idOracle
        (.NGetText "%(n)s" "%(n)s" 5
          (some (.KeywordArgs [("n", .Text "7")]))) [] =
      .ok "7" ∧
    SMap.get [("n", "7")] "n" = some "7" := by
  have h := C10_explicit_n_overrides idOracle [] "%(n)s" "%(n)s" 5 [] []
    (.Text "7") "7" [("n", "7")] (by simp) rfl rfl
  refine ⟨?_, h.2.1⟩
  rw [show Value.try_into_string idOracle
      (.NGetText "%(n)s" "%(n)s" 5 (some (.KeywordArgs [("n", .Text "7")]))) []
      = pythonFormat (idOracle.ngettext "%(n)s" "%(n)s" 5)
          (mapArgSource [("n", "7")] []) from h.1]
  rfl
